import Mathlib

/-!
Verification of the krm-helm-upgrader repository.

Three components are embedded:

* `SourcePackages` — the Fleet package-tree resolver (cmd/source-packages).
  The implementation file of this component is not present under `src/`
  (only its test file `packages_test.go` is), so the resolver is modelled
  from the specification (sections 3, 4.1–4.4) and checked against the
  concrete expectations recorded in `packages_test.go`.
* `HelmUpgrader` — the chart-version upgrader (cmd/krm-helm-upgrader/main.go),
  embedded with its external collaborators (repo search, semver resolution)
  as parameters.
* `ChartRenderer` — the chart renderer function (`Run` in the unnamed
  source file), embedded with chart expansion/sourcing as parameters.
-/

namespace SourcePackages

/-- Merged metadata maps are modelled as association lists over strings;
lookup takes the most recent binding, so inserting is consing and a later
writer shadows an earlier one (the Go code uses `map[string]string`, whose
content is exactly the lookup function). -/
abbrev Md := List (String × String)

/-- Lookup of a key in a metadata map: first (most recent) binding wins. -/
def mdLookup (m : Md) (k : String) : Option String :=
  match m with
  | [] => none
  | (k2, v) :: rest => if k2 = k then some v else mdLookup rest k

/-- Overwrite-by-key insertion: the new binding shadows any old one. -/
def mdInsert (m : Md) (k v : String) : Md := (k, v) :: m

/-- The keys of a metadata map (possibly with duplicates from shadowing). -/
def mdKeys (m : Md) : List String := m.map Prod.fst

/-- Two metadata maps are equivalent when they agree as maps, i.e. on the
lookup of every key. -/
def mdEquiv (m1 m2 : Md) : Prop := ∀ k, mdLookup m1 k = mdLookup m2 k

/-- Executable check for `mdEquiv`: agreement on every key of either map. -/
def mdEquivB (m1 m2 : Md) : Bool :=
  (mdKeys m1 ++ mdKeys m2).all (fun k => mdLookup m1 k == mdLookup m2 k)

/-- Errors of the Fleet parser/resolver, as named in the specification. -/
inductive FleetError where
  | MalformedInput
  | MissingReference
  | ReservedKeyConflict
  | TemplateEvaluationError

/-- Modelled from the spec: minimal template substitution (section 9 of the
spec; the implementation of cmd/source-packages is not under src/). The
recognized field set is exactly the node's `name`: every occurrence of the
placeholder for `.name` is replaced by the node's name, and any other
template reference fails with `TemplateEvaluationError`. -/
def renderAux (nm : List Char) : List Char → Except FleetError (List Char)
  | '{' :: '{' :: '.' :: 'n' :: 'a' :: 'm' :: 'e' :: '}' :: '}' :: rest =>
      (renderAux nm rest).map (fun out => nm ++ out)
  | '{' :: '{' :: _ => .error .TemplateEvaluationError
  | c :: rest => (renderAux nm rest).map (fun out => c :: out)
  | [] => .ok []

/-- Render a templated metadata value against a node name. -/
def renderTemplate (nm tmpl : String) : Except FleetError String :=
  (renderAux nm.toList tmpl.toList).map List.asString

/-- Modelled from the spec: a package node of a Fleet document (spec
section 3; the implementation of cmd/source-packages is not under src/).
Children are carried in document order. -/
inductive PackageNode where
  | mk (name : String) (sourcePath : Option String) (stub : Bool)
       (ref : Option String) (inheritFromParent : Bool)
       (specMeta : Md) (templatedMeta : Md)
       (packages : List PackageNode)

def PackageNode.name : PackageNode → String
  | .mk nm _ _ _ _ _ _ _ => nm

def PackageNode.packages : PackageNode → List PackageNode
  | .mk _ _ _ _ _ _ _ ps => ps

/-- Modelled from the spec: the optional Defaults node (spec section 3). -/
structure FleetDefaults where
  ref : Option String
  specMeta : Md
  templatedMeta : Md

/-- Modelled from the spec: a structurally well-formed Fleet document (the
upstream list is omitted: which upstream a package resolves against is an
open question of the spec and no claim depends on it). -/
structure FleetDoc where
  name : String
  defaults : Option FleetDefaults
  packages : List PackageNode

/-- A resolved node: effective reference and merged metadata computed,
children resolved recursively. -/
inductive RNode where
  | mk (name : String) (sourcePath : Option String) (stub : Bool)
       (effRef : Option String) (merged : Md) (packages : List RNode)

def RNode.name : RNode → String
  | .mk nm _ _ _ _ _ => nm

def RNode.merged : RNode → Md
  | .mk _ _ _ _ m _ => m

def RNode.packages : RNode → List RNode
  | .mk _ _ _ _ _ ps => ps

/-- Overlay literal `spec` metadata onto a base map, overwriting by key. -/
def overlaySpec (base : Md) : Md → Md
  | [] => base
  | (k, v) :: rest => overlaySpec (mdInsert base k v) rest

/-- Overlay `templated` metadata onto a base map: each value is rendered
against the node's name, then overwrites by key. -/
def overlayTemplated (nm : String) (base : Md) : Md → Except FleetError Md
  | [] => .ok base
  | (k, tv) :: rest =>
      match renderTemplate nm tv with
      | .error e => .error e
      | .ok v => overlayTemplated nm (mdInsert base k v) rest

/-- Modelled from the spec: the metadata merge engine (spec section 4.3).
Start from the parent's merged map when `inheritFromParent`, else from the
empty map; overlay literal `spec` pairs, then rendered `templated` pairs,
then force the `name` key, unconditionally, last. -/
def mergeMetadata (nm : String) (inh : Bool) (pmd : Md) (specM tmplM : Md) :
    Except FleetError Md :=
  let base0 := if inh then pmd else []
  let base1 := overlaySpec base0 specM
  match overlayTemplated nm base1 tmplM with
  | .error e => .error e
  | .ok base2 => .ok (mdInsert base2 "name" nm)

mutual

/-- Modelled from the spec: reference resolution and metadata merge in one
top-down traversal (spec sections 4.2, 4.3). A node's effective ref is its
own explicit ref, else the inherited one; a non-stub package with a
sourcePath and no effective ref fails with `MissingReference`. -/
def resolveNode (pref : Option String) (pmd : Md) :
    PackageNode → Except FleetError RNode
  | .mk nm sp stub ref inh specM tmplM pkgs =>
      let eff := match ref with
        | some r => some r
        | none => pref
      if !stub && sp.isSome && eff.isNone then
        .error .MissingReference
      else
        match mergeMetadata nm inh pmd specM tmplM with
        | .error e => .error e
        | .ok merged =>
            match resolveChildren eff merged pkgs with
            | .error e => .error e
            | .ok kids => .ok (.mk nm sp stub eff merged kids)

/-- Resolve a sibling list in document order, failing on the first error. -/
def resolveChildren (pref : Option String) (pmd : Md) :
    List PackageNode → Except FleetError (List RNode)
  | [] => .ok []
  | p :: ps =>
      match resolveNode pref pmd p with
      | .error e => .error e
      | .ok r =>
          match resolveChildren pref pmd ps with
          | .error e => .error e
          | .ok rs => .ok (r :: rs)

end

/-- The fully-resolved Fleet: the validated, resolved package tree. -/
structure FleetSpec where
  name : String
  tree : List RNode

/-- Modelled from the spec: the merged metadata fragment Defaults seeds its
children with (spec section 4.3 edge cases): literal pairs overlaid first,
then templated pairs; Defaults has no own name, so templated values are
rendered against the empty name. No `name` key is injected. -/
def defaultsMd (d : FleetDefaults) : Except FleetError Md :=
  overlayTemplated "" (overlaySpec [] d.specMeta) d.templatedMeta

/-- Modelled from the spec: `ParseFleetSpec` (spec section 4.1; the
implementation of cmd/source-packages is not under src/). The input is
`none` for bytes that do not parse into a document. Rejects a Defaults
literal fragment declaring the reserved key `name`, then resolves the whole
tree (which fails fast on a content package without an effective ref).
All-or-nothing: the result is either a fully-resolved FleetSpec or one
error. -/
def ParseFleetSpec : Option FleetDoc → Except FleetError FleetSpec
  | none => .error .MalformedInput
  | some doc =>
      match doc.defaults with
      | some d =>
          if (mdKeys d.specMeta).contains "name" then
            .error .ReservedKeyConflict
          else
            match defaultsMd d with
            | .error e => .error e
            | .ok dm =>
                match resolveChildren d.ref dm doc.packages with
                | .error e => .error e
                | .ok tree => .ok ⟨doc.name, tree⟩
      | none =>
          match resolveChildren none [] doc.packages with
          | .error e => .error e
          | .ok tree => .ok ⟨doc.name, tree⟩

/-- The Go signature of ParseFleetSpec returns a pair (spec pointer, error);
this wrapper exposes that shape for the all-or-nothing claim. -/
def ParseFleetSpecGo (doc : Option FleetDoc) :
    Option FleetSpec × Option FleetError :=
  match ParseFleetSpec doc with
  | .ok f => (some f, none)
  | .error e => (none, some e)

/-- A flattened package record: name, resolved ref, source path and merged
metadata (spec section 4.4; the upstream field is omitted, as in
`FleetDoc`). -/
structure ResolvedPackage where
  name : String
  ref : String
  sourcePath : String
  merged : Md

mutual

/-- Modelled from the spec: the flattener (spec section 4.4). Depth-first,
document order; emits a record per non-stub node with a sourcePath and
skips stub nodes while still traversing their descendants. -/
def flattenNode : RNode → List ResolvedPackage
  | .mk nm sp stub eff merged kids =>
      let rest := flattenList kids
      if stub then rest
      else
        match sp, eff with
        | some spv, some r => ⟨nm, r, spv, merged⟩ :: rest
        | _, _ => rest

/-- Flatten a resolved sibling list in document order. -/
def flattenList : List RNode → List ResolvedPackage
  | [] => []
  | n :: ns => flattenNode n ++ flattenList ns

end

/-- Positional lookup in a list (the n-th element, if any). -/
def listGet {α : Type} : List α → Nat → Option α
  | [], _ => none
  | x :: _, 0 => some x
  | _ :: xs, n + 1 => listGet xs n

/-- The node of a resolved tree at a path of sibling indices. -/
def nodeAtList (rs : List RNode) : List Nat → Option RNode
  | [] => none
  | [i] => listGet rs i
  | i :: rest =>
      match listGet rs i with
      | none => none
      | some n => nodeAtList (RNode.packages n) rest

/-- The merged metadata of the node at a path of a parse result. -/
def mergedAtPath (res : Except FleetError FleetSpec) (path : List Nat) :
    Option Md :=
  match res with
  | .error _ => none
  | .ok f => (nodeAtList f.tree path).map RNode.merged

/-- Names of the flattened packages of a parse result, in emitted order. -/
def flatNames : Except FleetError FleetSpec → List String
  | .error _ => []
  | .ok f => (flattenList f.tree).map ResolvedPackage.name

/-- Whether an Except value is a success. -/
def exceptOk {ε α : Type} : Except ε α → Bool
  | .ok _ => true
  | .error _ => false

/-- Map equivalence lifted to an optional first argument. -/
def mdEquivO : Option Md → Md → Prop
  | some m, e => mdEquiv m e
  | none, _ => False

/-- Executable check for `mdEquivO`. -/
def mdEquivOB : Option Md → Md → Bool
  | some m, e => mdEquivB m e
  | none, _ => false

/-- The Fleet document of `fleetMustParse[0]` in packages_test.go,
transcribed field by field. -/
def testFleet : FleetDoc :=
  ⟨"example-fleet",
   some ⟨some "main", [("k1", "v1"), ("k2", "v2")], []⟩,
   [.mk "foo" (some "examples/source-packages/pkg1") false none true [] [] [],
    .mk "bar" (some "examples/source-packages/pkg2") false none true
      [("k2", "v2"), ("k3", "v3")] []
      [.mk "bar1" (some "examples/source-packages/pkg3") false none true
        [("k3-2", "v3-2"), ("k4-2", "v4-2")] [] []],
    .mk "zap" none true none true [("k4", "v4"), ("k5", "v5")] []
      [.mk "zap1" (some "examples/source-packages/pkg4") false none true
        [("k5-2", "v5-2"), ("k6-2", "v6-2")] [] [],
       .mk "zap2" (some "examples/source-packages/pkg4") false none false
        [("k7", "v7")] [("k8", "\x7b\x7b.name\x7d\x7d")] []]]⟩

/-- The second document of `fleetMustFailParse` in packages_test.go: package
`foo` has a sourcePath but no ref anywhere (no defaults). -/
def missingRefDoc : FleetDoc :=
  ⟨"example-fleet", none,
   [.mk "foo" (some "examples/source-packages/pkg1") false none true [] [] []]⟩

/-- `missingRefDoc` with the package marked stub and carrying no content. -/
def missingRefStubDoc : FleetDoc :=
  ⟨"example-fleet", none,
   [.mk "foo" none true none true [] [] []]⟩

/-- The third document of `fleetMustFailParse` in packages_test.go: Defaults
declares the reserved metadata key `name`. -/
def reservedKeyDoc : FleetDoc :=
  ⟨"example-fleet",
   some ⟨none, [("name", "cannot-have-name-key")], []⟩,
   [.mk "foo" (some "examples/source-packages/pkg1") false (some "main") true
      [] [] []]⟩

/-- Whether the node of a parse result at a path (if both exist) has the
key `name` bound to its own name in its merged metadata. -/
def nameOkAt (res : Except FleetError FleetSpec) (path : List Nat) : Bool :=
  match res with
  | .error _ => true
  | .ok f =>
      match nodeAtList f.tree path with
      | none => true
      | some r => mdLookup (RNode.merged r) "name" == some (RNode.name r)

theorem mdLookup_of_not_mem (m : Md) (k : String) (h : k ∉ mdKeys m) :
    mdLookup m k = none := by
  induction m with
  | nil => rfl
  | cons kv rest ih =>
    obtain ⟨k2, v⟩ := kv
    simp only [mdKeys, List.map_cons, List.mem_cons, not_or] at h
    simp only [mdLookup]
    rw [if_neg (fun he => h.1 he.symm)]
    exact ih h.2

theorem mdEquiv_of_b (m1 m2 : Md) (h : mdEquivB m1 m2 = true) :
    mdEquiv m1 m2 := by
  intro k
  by_cases hk : k ∈ mdKeys m1 ++ mdKeys m2
  · have := List.all_eq_true.mp h k hk
    exact eq_of_beq this
  · simp only [List.mem_append] at hk
    push_neg at hk
    rw [mdLookup_of_not_mem m1 k hk.1, mdLookup_of_not_mem m2 k hk.2]

theorem mdEquivO_of_b (o : Option Md) (e : Md) (h : mdEquivOB o e = true) :
    mdEquivO o e := by
  cases o with
  | none => simp [mdEquivOB] at h
  | some m => exact mdEquiv_of_b m e h

theorem mergeMetadata_lookup_name (nm : String) (inh : Bool)
    (pmd specM tmplM m : Md)
    (h : mergeMetadata nm inh pmd specM tmplM = .ok m) :
    mdLookup m "name" = some nm := by
  simp only [mergeMetadata] at h
  split at h
  · simp at h
  · injection h with h
    subst h
    simp [mdInsert, mdLookup]

theorem resolveNode_ok_inv (pref : Option String) (pmd : Md)
    (p : PackageNode) (r : RNode) (h : resolveNode pref pmd p = .ok r) :
    mdLookup (RNode.merged r) "name" = some (RNode.name r) ∧
      ∃ eff, resolveChildren eff (RNode.merged r) (PackageNode.packages p) =
        .ok (RNode.packages r) := by
  cases p with
  | mk nm sp stub ref inh specM tmplM pkgs =>
    simp only [resolveNode] at h
    split at h
    · simp at h
    · split at h
      · simp at h
      · rename_i merged hmerge
        split at h
        · simp at h
        · rename_i kids hkids
          injection h with h
          subst h
          constructor
          · simpa [RNode.merged, RNode.name] using
              mergeMetadata_lookup_name nm inh pmd specM tmplM merged hmerge
          · exact ⟨_, by
              simpa [RNode.merged, RNode.packages, PackageNode.packages]
                using hkids⟩

theorem resolveChildren_get (pref : Option String) (pmd : Md) :
    ∀ (ps : List PackageNode) (rs : List RNode) (i : Nat) (r : RNode),
      resolveChildren pref pmd ps = .ok rs → listGet rs i = some r →
      ∃ p, listGet ps i = some p ∧ resolveNode pref pmd p = .ok r := by
  intro ps
  induction ps with
  | nil =>
    intro rs i r h hg
    simp only [resolveChildren] at h
    injection h with h
    subst h
    simp [listGet] at hg
  | cons p ps ih =>
    intro rs i r h hg
    simp only [resolveChildren] at h
    split at h
    · simp at h
    · rename_i r0 hr0
      split at h
      · simp at h
      · rename_i rs0 hrs0
        injection h with h
        subst h
        cases i with
        | zero =>
          simp only [listGet, Option.some.injEq] at hg
          subst hg
          exact ⟨p, rfl, hr0⟩
        | succ n =>
          simp only [listGet] at hg
          obtain ⟨p2, hp2, hres⟩ := ih rs0 n r hrs0 hg
          exact ⟨p2, by simpa [listGet] using hp2, hres⟩

theorem nodeAt_resolve_nameOk :
    ∀ (path : List Nat) (pref : Option String) (pmd : Md)
      (ps : List PackageNode) (rs : List RNode) (r : RNode),
      resolveChildren pref pmd ps = .ok rs → nodeAtList rs path = some r →
      mdLookup (RNode.merged r) "name" = some (RNode.name r) := by
  intro path
  induction path with
  | nil =>
    intro pref pmd ps rs r h hn
    simp [nodeAtList] at hn
  | cons i rest ih =>
    intro pref pmd ps rs r h hn
    cases rest with
    | nil =>
      simp only [nodeAtList] at hn
      obtain ⟨p, _, hres⟩ := resolveChildren_get pref pmd ps rs i r h hn
      exact (resolveNode_ok_inv pref pmd p r hres).1
    | cons j rest2 =>
      simp only [nodeAtList] at hn
      cases hg : listGet rs i with
      | none => rw [hg] at hn; simp at hn
      | some n =>
        rw [hg] at hn
        obtain ⟨p, _, hres⟩ := resolveChildren_get pref pmd ps rs i n h hg
        obtain ⟨-, eff, hkids⟩ := resolveNode_ok_inv pref pmd p n hres
        exact ih eff (RNode.merged n) (PackageNode.packages p)
          (RNode.packages n) r hkids hn

theorem ParseFleetSpec_ok_tree (doc : Option FleetDoc) (f : FleetSpec)
    (h : ParseFleetSpec doc = .ok f) :
    ∃ pref pmd ps, resolveChildren pref pmd ps = .ok f.tree := by
  cases doc with
  | none => simp [ParseFleetSpec] at h
  | some d =>
    simp only [ParseFleetSpec] at h
    split at h
    · rename_i df hdf
      split at h
      · simp at h
      · split at h
        · simp at h
        · rename_i dm hdm
          split at h
          · simp at h
          · rename_i tree htree
            injection h with h
            subst h
            exact ⟨_, _, _, htree⟩
    · split at h
      · simp at h
      · rename_i tree htree
        injection h with h
        subst h
        exact ⟨_, _, _, htree⟩

example :
    mdEquivOB (mergedAtPath (ParseFleetSpec (some testFleet)) [0])
      [("name", "foo"), ("k1", "v1"), ("k2", "v2")] = true := rfl

example :
    mdEquivOB (mergedAtPath (ParseFleetSpec (some testFleet)) [1])
      [("name", "bar"), ("k1", "v1"), ("k2", "v2"), ("k3", "v3")] = true := rfl

example :
    mdEquivOB (mergedAtPath (ParseFleetSpec (some testFleet)) [1, 0])
      [("name", "bar1"), ("k1", "v1"), ("k2", "v2"), ("k3", "v3"),
       ("k3-2", "v3-2"), ("k4-2", "v4-2")] = true := rfl

example :
    mdEquivOB (mergedAtPath (ParseFleetSpec (some testFleet)) [2, 0])
      [("name", "zap1"), ("k1", "v1"), ("k2", "v2"), ("k4", "v4"),
       ("k5", "v5"), ("k5-2", "v5-2"), ("k6-2", "v6-2")] = true := rfl

example :
    mdEquivOB (mergedAtPath (ParseFleetSpec (some testFleet)) [2, 1])
      [("name", "zap2"), ("k7", "v7"), ("k8", "zap2")] = true := rfl

example :
    flatNames (ParseFleetSpec (some testFleet)) =
      ["foo", "bar", "bar1", "zap1", "zap2"] := rfl

example : ParseFleetSpec (some missingRefDoc) = .error .MissingReference := rfl

example : exceptOk (ParseFleetSpec (some missingRefStubDoc)) = true := rfl

example :
    ParseFleetSpec (some reservedKeyDoc) = .error .ReservedKeyConflict := rfl

/-- C1: for every node in a parsed Fleet tree (any document, any path into
the resolved tree), the node's merged metadata map contains the key `name`
bound to that node's own name, regardless of `inheritFromParent` and of any
user-supplied `spec` or `templated` entries: the injected `name` is applied
last and can never be overridden. -/
theorem merged_metadata_contains_name (doc : Option FleetDoc)
    (path : List Nat) : nameOkAt (ParseFleetSpec doc) path = true := by
  cases hres : ParseFleetSpec doc with
  | error e => simp [nameOkAt]
  | ok f =>
    cases hn : nodeAtList f.tree path with
    | none => simp [nameOkAt, hn]
    | some r =>
      obtain ⟨pref, pmd, ps, hch⟩ := ParseFleetSpec_ok_tree doc f hres
      have hlk := nodeAt_resolve_nameOk path pref pmd ps f.tree r hch hn
      simp [nameOkAt, hn, hlk]

/-- C2: package `zap2` (child of stub `zap`, which contributes k4/k5 on top
of the Defaults k1/k2) has `inheritFromParent: false`, literal `k7:v7` and
templated `k8` referencing the node name; its merged metadata is exactly
`name:zap2, k7:v7, k8:zap2` — no inherited keys, and the template rendered
to the node's own name. -/
theorem zap2_merged_isolated :
    mdEquivO (mergedAtPath (ParseFleetSpec (some testFleet)) [2, 1])
      [("name", "zap2"), ("k7", "v7"), ("k8", "zap2")] :=
  mdEquivO_of_b _ _ rfl

/-- C3: with Defaults metadata k1/k2 and ref `main`, package `foo` (no
overrides) merges to `name:foo, k1:v1, k2:v2`; `bar` (literal k2/k3) to
`name:bar, k1:v1, k2:v2, k3:v3`; its child `bar1` (literal k3-2/k4-2) to
`name:bar1, k1:v1, k2:v2, k3:v3, k3-2:v3-2, k4-2:v4-2` — child maps are the
parent maps overlaid with the child's entries plus the injected name. -/
theorem defaults_inheritance_scenario :
    mdEquivO (mergedAtPath (ParseFleetSpec (some testFleet)) [0])
      [("name", "foo"), ("k1", "v1"), ("k2", "v2")] ∧
    mdEquivO (mergedAtPath (ParseFleetSpec (some testFleet)) [1])
      [("name", "bar"), ("k1", "v1"), ("k2", "v2"), ("k3", "v3")] ∧
    mdEquivO (mergedAtPath (ParseFleetSpec (some testFleet)) [1, 0])
      [("name", "bar1"), ("k1", "v1"), ("k2", "v2"), ("k3", "v3"),
       ("k3-2", "v3-2"), ("k4-2", "v4-2")] :=
  ⟨mdEquivO_of_b _ _ rfl, mdEquivO_of_b _ _ rfl, mdEquivO_of_b _ _ rfl⟩

/-- C4: the stub package `zap` contributes no record to the flattened
output (it is absent from the emitted name list, which is exactly the five
content packages in document order), while its child `zap1` is present and
gets merged metadata `name:zap1, k1:v1, k2:v2, k4:v4, k5:v5, k5-2:v5-2,
k6-2:v6-2` — the stub's metadata still flows to its descendants. -/
theorem stub_skipped_but_metadata_flows :
    flatNames (ParseFleetSpec (some testFleet)) =
      ["foo", "bar", "bar1", "zap1", "zap2"] ∧
    (flatNames (ParseFleetSpec (some testFleet))).contains "zap" = false ∧
    mdEquivO (mergedAtPath (ParseFleetSpec (some testFleet)) [2, 0])
      [("name", "zap1"), ("k1", "v1"), ("k2", "v2"), ("k4", "v4"),
       ("k5", "v5"), ("k5-2", "v5-2"), ("k6-2", "v6-2")] :=
  ⟨rfl, rfl, mdEquivO_of_b _ _ rfl⟩

/-- C5: a document with a non-stub content package (sourcePath set) that
has no explicit ref, no ancestor ref and no Defaults ref fails with
`MissingReference`; the same package marked stub and with no content parses
without failure. -/
theorem missing_ref_fails_stub_passes :
    ParseFleetSpec (some missingRefDoc) = .error .MissingReference ∧
    exceptOk (ParseFleetSpec (some missingRefStubDoc)) = true :=
  ⟨rfl, rfl⟩

/-- C6: a document whose Defaults metadata `spec` fragment defines the
reserved key `name` fails with `ReservedKeyConflict`, and no FleetSpec is
produced. -/
theorem reserved_key_conflict_fails :
    ParseFleetSpec (some reservedKeyDoc) = .error .ReservedKeyConflict ∧
    (ParseFleetSpecGo (some reservedKeyDoc)).1 = none :=
  ⟨rfl, rfl⟩

/-- C7: ParseFleetSpec is all-or-nothing — for every input document, the
Go-shaped result carries either a FleetSpec and no error, or an error and
no FleetSpec, never both and never neither. -/
theorem parse_all_or_nothing (doc : Option FleetDoc) :
    ((ParseFleetSpecGo doc).1.isSome = true ∧ (ParseFleetSpecGo doc).2 = none) ∨
    ((ParseFleetSpecGo doc).1 = none ∧ (ParseFleetSpecGo doc).2.isSome = true) := by
  cases hres : ParseFleetSpec doc with
  | ok f => left; simp [ParseFleetSpecGo, hres]
  | error e => right; simp [ParseFleetSpecGo, hres]

end SourcePackages

namespace HelmUpgrader

/-- The chart coordinates used by the upgrader (helmspecs.HelmChartArgs
restricted to the fields main.go reads: Name, Repo, Version). -/
structure HelmChartArgs where
  name : String
  repo : String
  version : String

/-- External collaborators of `evaluateChartVersion` (main.go lines 40-58):
repo search, filtering, listing of version strings, and semver-based
upgrade selection, over an abstract search-result type. -/
structure HelmEnv (σ : Type) where
  searchRepo : HelmChartArgs → Except String σ
  filterByChartName : σ → HelmChartArgs → σ
  toVersionList : σ → List String
  semverUpgrade : List String → String → Except String String

/-- Embedding of `evaluateChartVersion` (main.go lines 40-58): an empty
constraint is replaced by the catch-all constraint, the repo is searched
and filtered, and the semver resolver picks the new version; the returned
chart is the input chart with only the version replaced. -/
def evaluateChartVersion {σ : Type} (env : HelmEnv σ) (chart : HelmChartArgs)
    (upgradeConstraint0 : String) : Except String HelmChartArgs :=
  let upgradeConstraint := if upgradeConstraint0 = "" then "*"
    else upgradeConstraint0
  match env.searchRepo chart with
  | .error e => .error e
  | .ok search =>
      let search2 := env.filterByChartName search chart
      let versions := env.toVersionList search2
      match env.semverUpgrade versions upgradeConstraint with
      | .error e => .error e
      | .ok newVersion => .ok ⟨chart.name, chart.repo, newVersion⟩

/-- C8: when no upgrade constraint is specified (the annotation is the
empty string), version resolution uses the constraint `*`:
evaluateChartVersion with the empty constraint behaves identically to
evaluateChartVersion with the constraint `*`, for every environment and
chart — returning the selected version or the error of the resolver. -/
theorem evaluateChartVersion_empty_eq_star {σ : Type} (env : HelmEnv σ)
    (chart : HelmChartArgs) :
    evaluateChartVersion env chart "" = evaluateChartVersion env chart "*" :=
  rfl

end HelmUpgrader

namespace ChartRenderer

/-- External collaborators of the renderer's `Run` (unnamed source file,
lines 44-114), over an abstract object type: the two group/kind tests, the
template expansion of an experimental.helm.sh/RenderHelmChart object into
rendered manifests, and the sourcing of a fn.kpt.dev/RenderHelmChart object
into the per-chart updated objects. -/
structure RenderEnv (α : Type) where
  isExperimentalRHC : α → Bool
  isKptRHC : α → Bool
  expandCharts : α → Except String (List α)
  sourceCharts : α → Except String (List α)

/-- Per-object step of the renderer's loop (the switch in `Run`): the two
recognized kinds are handed to their collaborator, every other object is
passed through unchanged as a singleton. -/
def processObject {α : Type} (env : RenderEnv α) (o : α) :
    Except String (List α) :=
  if env.isExperimentalRHC o then env.expandCharts o
  else if env.isKptRHC o then env.sourceCharts o
  else .ok [o]

/-- Embedding of the renderer's `Run` loop: objects are processed in order,
their outputs concatenated in order, and the first error aborts the run. -/
def runItems {α : Type} (env : RenderEnv α) : List α → Except String (List α)
  | [] => .ok []
  | o :: rest =>
      match processObject env o with
      | .error e => .error e
      | .ok objs =>
          match runItems env rest with
          | .error e => .error e
          | .ok outs => .ok (objs ++ outs)

/-- Whether an object is of neither recognized group/kind. -/
def isPassthrough {α : Type} (env : RenderEnv α) (o : α) : Bool :=
  !env.isExperimentalRHC o && !env.isKptRHC o

/-- C9: every input object whose group/kind is neither
experimental.helm.sh/RenderHelmChart nor fn.kpt.dev/RenderHelmChart is
passed through to the output unchanged and in its original relative order
(the passthrough objects form a sublist of the output), and on success the
loop only ever replaces or expands the two recognized kinds: a passthrough
object is processed to exactly itself. -/
theorem run_passthrough_frame {α : Type} (env : RenderEnv α)
    (items out : List α) (h : runItems env items = .ok out) :
    (items.filter (isPassthrough env)).Sublist out ∧
    ∀ o, isPassthrough env o = true → processObject env o = .ok [o] := by
  constructor
  · induction items generalizing out with
    | nil =>
      simp only [runItems] at h
      injection h with h
      subst h
      simp
    | cons o rest ih =>
      simp only [runItems] at h
      split at h
      · simp at h
      · rename_i objs hobjs
        split at h
        · simp at h
        · rename_i outs houts
          injection h with h
          subst h
          by_cases hp : isPassthrough env o = true
          · have hobj : objs = [o] := by
              simp only [processObject] at hobjs
              simp only [isPassthrough, Bool.and_eq_true, Bool.not_eq_true'] at hp
              rw [if_neg (by simp [hp.1]), if_neg (by simp [hp.2])] at hobjs
              injection hobjs with hobjs
              exact hobjs.symm
            subst hobj
            simpa [List.filter_cons, hp] using List.Sublist.cons₂ o (ih outs houts)
          · have hp2 : isPassthrough env o = false := by
              cases hq : isPassthrough env o
              · rfl
              · exact absurd hq hp
            simp only [List.filter_cons, hp2]
            exact ((ih outs houts).trans (List.sublist_append_right objs outs))
  · intro o hp
    simp only [isPassthrough, Bool.and_eq_true, Bool.not_eq_true'] at hp
    simp [processObject, hp.1, hp.2]

/-- A concrete environment for the witness: objects are naturals, 0 is of
the experimental kind and expands to two rendered manifests, 1 is of the
kpt kind and is sourced to itself, everything else is passed through. -/
def witnessEnv : RenderEnv Nat :=
  ⟨fun o => o == 0, fun o => o == 1,
   fun _ => .ok [100, 101], fun o => .ok [o]⟩

theorem run_passthrough_frame_witness :
    ([0, 2, 1, 3].filter (isPassthrough witnessEnv)).Sublist
        [100, 101, 2, 1, 3] ∧
    ∀ o, isPassthrough witnessEnv o = true →
      processObject witnessEnv o = .ok [o] :=
  run_passthrough_frame witnessEnv [0, 2, 1, 3] [100, 101, 2, 1, 3] rfl

end ChartRenderer

namespace HelmUpgrader

/-- The four configuration flags read by the upgrader (parseConfig /
Config in cmd/krm-helm-upgrader). -/
structure UpgraderConfig where
  annotateOnUpgradeAvailable : Bool
  upgradeOnUpgradeAvailable : Bool
  annotateSumOnUpgradeAvailable : Bool
  annotateCurrentSum : Bool

/-- The two process-global counters of main.go line 37 (Go ints, modelled
as integers). -/
structure Counters where
  upgradesDone : Int
  upgradesAvailable : Int

/-- The observable outcome of one chart handled by `handleNewVersion`:
whether the looked-up version differs from the current one, and whether the
two fallible collaborator calls (annotation setting, chart pull) fail. -/
structure ChartEvent where
  versionDiffers : Bool
  annotateFails : Bool
  pullFails : Bool

/-- Counter/outcome semantics of `handleNewVersion` (main.go lines 61-117):
when the version differs, upgradesAvailable is incremented first; setting
the upgrade annotation may then fail and abort; upgradesDone is incremented
only when UpgradeOnUpgradeAvailable is set; pulling the chart for the sum
annotation may fail and abort. When the version is unchanged, no counter is
touched (the current-sum annotation may still fail). The Bool is success. -/
def handleNewVersionCounters (cfg : UpgraderConfig) (ev : ChartEvent)
    (c : Counters) : Counters × Bool :=
  if ev.versionDiffers then
    let c1 : Counters := ⟨c.upgradesDone, c.upgradesAvailable + 1⟩
    if cfg.annotateOnUpgradeAvailable && ev.annotateFails then (c1, false)
    else
      let c2 : Counters :=
        if cfg.upgradeOnUpgradeAvailable then
          ⟨c1.upgradesDone + 1, c1.upgradesAvailable⟩
        else c1
      if cfg.annotateSumOnUpgradeAvailable && ev.pullFails then (c2, false)
      else (c2, true)
  else
    if cfg.annotateCurrentSum && ev.pullFails then (c, false) else (c, true)

/-- Counter semantics of the upgrader's `Run`: the charts of all recognized
objects are handled in order against the global counters; the first error
aborts the run, leaving the counters as already mutated. -/
def runCounters (cfg : UpgraderConfig) :
    List ChartEvent → Counters → Counters × Bool
  | [], c => (c, true)
  | ev :: evs, c =>
      match handleNewVersionCounters cfg ev c with
      | (c1, false) => (c1, false)
      | (c1, true) => runCounters cfg evs c1

/-- The `upgradesSkipped` field of the summary result emitted at main.go
line 175, computed as upgradesAvailable - upgradesDone. -/
def upgradesSkipped (c : Counters) : Int :=
  c.upgradesAvailable - c.upgradesDone

theorem handleNewVersionCounters_le (cfg : UpgraderConfig) (ev : ChartEvent)
    (c : Counters) (h : c.upgradesDone ≤ c.upgradesAvailable) :
    (handleNewVersionCounters cfg ev c).1.upgradesDone ≤
      (handleNewVersionCounters cfg ev c).1.upgradesAvailable := by
  simp only [handleNewVersionCounters]
  split_ifs <;> dsimp <;> omega

theorem runCounters_mono (cfg : UpgraderConfig) :
    ∀ (evs : List ChartEvent) (c : Counters),
      c.upgradesDone ≤ c.upgradesAvailable →
      (runCounters cfg evs c).1.upgradesDone ≤
        (runCounters cfg evs c).1.upgradesAvailable := by
  intro evs
  induction evs with
  | nil => intro c h; exact h
  | cons ev evs ih =>
    intro c h
    have h1 := handleNewVersionCounters_le cfg ev c h
    simp only [runCounters]
    cases hstep : handleNewVersionCounters cfg ev c with
    | mk c1 okb =>
      rw [hstep] at h1
      cases okb
      · simpa using h1
      · simpa using ih c1 h1

theorem runCounters_append (cfg : UpgraderConfig) :
    ∀ (evs1 evs2 : List ChartEvent) (c : Counters),
      (runCounters cfg evs1 c).2 = true →
      runCounters cfg (evs1 ++ evs2) c =
        runCounters cfg evs2 (runCounters cfg evs1 c).1 := by
  intro evs1
  induction evs1 with
  | nil => intro evs2 c _; rfl
  | cons ev evs ih =>
    intro evs2 c h
    simp only [runCounters, List.cons_append] at h ⊢
    split at h
    · simp at h
    · rename_i c1 hmatch
      exact ih evs2 c1 h

/-- C10: upgradesDone never exceeds upgradesAvailable (the done counter is
only incremented in the branch that has already incremented the available
counter), so the summary's upgradesSkipped value, computed as
upgradesAvailable - upgradesDone, is non-negative; and the counters
accumulate across successive runs rather than resetting: running further
events continues from the counters a completed run left behind. -/
theorem counters_invariant (cfg : UpgraderConfig) (evs : List ChartEvent)
    (c : Counters) (h : c.upgradesDone ≤ c.upgradesAvailable) :
    (runCounters cfg evs c).1.upgradesDone ≤
      (runCounters cfg evs c).1.upgradesAvailable ∧
    0 ≤ upgradesSkipped (runCounters cfg evs c).1 ∧
    ∀ evs2, (runCounters cfg evs c).2 = true →
      runCounters cfg (evs ++ evs2) c =
        runCounters cfg evs2 (runCounters cfg evs c).1 := by
  refine ⟨runCounters_mono cfg evs c h, ?_,
    fun evs2 hok => runCounters_append cfg evs evs2 c hok⟩
  have hm := runCounters_mono cfg evs c h
  unfold upgradesSkipped
  omega

/-- The configuration with every feature enabled, for the witness. -/
def witnessConfig : UpgraderConfig := ⟨true, true, true, true⟩

theorem counters_invariant_witness :
    ((0 : Int) ≤ 0) ∧
    (runCounters witnessConfig [⟨true, false, false⟩] ⟨0, 0⟩).1.upgradesDone ≤
      (runCounters witnessConfig [⟨true, false, false⟩] ⟨0, 0⟩).1.upgradesAvailable ∧
    0 ≤ upgradesSkipped (runCounters witnessConfig [⟨true, false, false⟩] ⟨0, 0⟩).1 :=
  ⟨le_refl 0,
   (counters_invariant witnessConfig [⟨true, false, false⟩] ⟨0, 0⟩ (le_refl 0)).1,
   (counters_invariant witnessConfig [⟨true, false, false⟩] ⟨0, 0⟩ (le_refl 0)).2.1⟩

end HelmUpgrader
